import Mathlib

/-!
Shallow embedding of the memory / customer-directory subsystem of the
`subconscious` voice-agent backend (src/services/memory.py,
src/services/customer_db.py, src/services/conversation.py,
src/services/tools.py), together with theorems settling the frozen
claims about it.

Python dictionaries are modelled as insertion-ordered association lists
(`List (String × Value)`); `dget`/`dset`/`dhas` mirror `d[k]` lookup,
`d[k] = v` assignment (update-in-place or append, exactly Python's
ordering behaviour) and `k in d`.
-/
namespace Subconscious

/-- A Python scalar value stored in a fact dictionary: the code stores
strings from extraction and the booleans `True`/`False` for flags. -/
inductive Value where
  | str (s : String)
  | bool (b : Bool)
deriving DecidableEq, Repr

/-- Python truthiness of a stored value (`if value:`). -/
def Value.truthy : Value → Bool
  | .str s => s ≠ ""
  | .bool b => b

/-- Python `str(value)`. -/
def Value.toStr : Value → String
  | .str s => s
  | .bool b => if b then "True" else "False"

/-- Dictionary lookup `d.get(k)`: first binding for the key. -/
def dget {α : Type} (d : List (String × α)) (k : String) : Option α :=
  (d.find? (fun p => p.1 == k)).map (fun p => p.2)

/-- Dictionary membership `k in d`. -/
def dhas {α : Type} (d : List (String × α)) (k : String) : Bool :=
  d.any (fun p => p.1 == k)

/-- Dictionary assignment `d[k] = v`: updates the existing binding in
place (keeping its position, as Python dicts do) or appends a new one. -/
def dset {α : Type} (d : List (String × α)) (k : String) (v : α) :
    List (String × α) :=
  if dhas d k then d.map (fun p => if p.1 == k then (k, v) else p)
  else d ++ [(k, v)]

/-- Python's `lst[-n:]`: the last `n` elements (all of them when the
list is shorter). -/
def lastN {α : Type} (n : Nat) (l : List α) : List α :=
  l.drop (l.length - n)

/-- Python `str.lower()`, characterwise (the embedded strings are ASCII,
where `Char.toLower` agrees with Python). -/
def lowerStr (s : String) : String := String.mk (s.toList.map Char.toLower)

/-- Python `str.strip()` with no argument: remove whitespace from both
ends. -/
def trimStr (s : String) : String :=
  String.mk (((s.toList.dropWhile Char.isWhitespace).reverse.dropWhile Char.isWhitespace).reverse)

/-- Python `str.startswith`. -/
def strStartsWith (s p : String) : Bool := p.toList.isPrefixOf s.toList

/-! Data model of src/services/memory.py and src/services/customer_db.py.
The global `customer_db` singleton and the `SmartMemory.sessions` map are
combined into one explicit state record, since `SmartMemory` methods
mutate both. -/
structure Message where
  role : String
  content : String
deriving DecidableEq, Repr

structure Session where
  business_id : String
  customer_details : List (String × Value)
  messages : List Message
deriving DecidableEq, Repr

structure CustomerDatabase where
  customers : List (String × List (String × Value))
deriving DecidableEq, Repr

structure SmartMemoryState where
  sessions : List (String × Session)
  db : CustomerDatabase
deriving DecidableEq, Repr

namespace CustomerDatabase

/-- Embeds `normalize_name` of customer_db.py: `name.lower().strip()`. -/
def normalize_name (name : String) : String := trimStr (lowerStr name)

/-- Embeds `save_customer` of customer_db.py (lines 29-51): no-op on an
empty name, otherwise merge the truthy values of `info` into the entry
for `business_id:normalized-name`, then refresh the original-case name
and the business id. -/
def save_customer (db : CustomerDatabase) (name business_id : String)
    (info : List (String × Value)) : CustomerDatabase :=
  if name = "" then db
  else
    let key := business_id ++ ":" ++ normalize_name name
    let entry := (dget db.customers key).getD []
    let entry := info.foldl (fun e kv => if kv.2.truthy then dset e kv.1 kv.2 else e) entry
    let entry := dset entry "name" (.str name)
    let entry := dset entry "business_id" (.str business_id)
    ⟨dset db.customers key entry⟩

/-- Embeds `find_customer` of customer_db.py (lines 53-70); the returned
`.copy()` is the identity in this pure model. -/
def find_customer (db : CustomerDatabase) (name business_id : String) :
    Option (List (String × Value)) :=
  if name = "" then none
  else dget db.customers (business_id ++ ":" ++ normalize_name name)

end CustomerDatabase

namespace SmartMemory

/-- Embeds `get_session` of memory.py (lines 26-34). -/
def get_session (st : SmartMemoryState) (session_id business_id : String) :
    SmartMemoryState × Session :=
  match dget st.sessions session_id with
  | some s => (st, s)
  | none =>
    let s : Session := ⟨business_id, [], []⟩
    ({ st with sessions := dset st.sessions session_id s }, s)

/-- Embeds `add_message` of memory.py (lines 36-43): append, then keep
only the last 20 entries (`messages[-20:]`). -/
def add_message (st : SmartMemoryState) (session_id role content : String) :
    SmartMemoryState :=
  match dget st.sessions session_id with
  | none => st
  | some s =>
    let s' := { s with messages := lastN 20 (s.messages ++ [⟨role, content⟩]) }
    { st with sessions := dset st.sessions session_id s' }

/-- Value literals rejected by `update_customer_details` (memory.py line 53). -/
def rejectedLiterals : List String := ["none", "null", "n/a", "unknown"]

/-- Embeds the guard of memory.py line 53: `value and str(value).strip()
and str(value).lower() not in [...]`. -/
def acceptValue (v : Value) : Bool :=
  v.truthy && (trimStr v.toStr != "") && !(rejectedLiterals.contains (lowerStr v.toStr))

/-- Embeds `key.lower().replace(" ", "_").replace("-", "_")` of memory.py
line 54; the patterns are single characters, so the composite acts
characterwise: lowercase the character, then map space and hyphen to an
underscore. -/
def normChar (c : Char) : Char :=
  let c' := c.toLower
  if c' = ' ' ∨ c' = '-' then '_' else c'

def normalizeKey (k : String) : String := String.mk (k.toList.map normChar)

/-- One iteration of the storing loop of `update_customer_details`
(memory.py lines 52-56). -/
def storeDetail (cur : List (String × Value)) (kv : String × Value) :
    List (String × Value) :=
  if acceptValue kv.2 then dset cur (normalizeKey kv.1) kv.2 else cur

/-- The Python `or` of two optional values: first operand when truthy,
otherwise the second operand. -/
def pyOr (a b : Option Value) : Option Value :=
  match a with
  | some v => if v.truthy then some v else b
  | none => b

/-- The name resolution of `_save_to_db` (memory.py lines 94-96):
`details.get("name") or details.get("customer_name") or
details.get("full_name")`, followed by the guard `if not name: return`. -/
def resolveName (details : List (String × Value)) : Option Value :=
  match pyOr (dget details "name")
      (pyOr (dget details "customer_name") (dget details "full_name")) with
  | some v => if v.truthy then some v else none
  | none => none

/-- Embeds the filter of memory.py lines 98-99: keep keys that do not
start with an underscore and are not `is_returning_customer`. -/
def meaningfulKey (k : String) : Bool :=
  !(strStartsWith k "_") && (k != "is_returning_customer")

def saveData (details : List (String × Value)) : List (String × Value) :=
  details.filter (fun kv => meaningfulKey kv.1)

/-- Embeds `_save_to_db` of memory.py (lines 85-102). -/
def save_to_db (st : SmartMemoryState) (session_id : String) : SmartMemoryState :=
  match dget st.sessions session_id with
  | none => st
  | some s =>
    match resolveName s.customer_details with
    | none => st
    | some nv =>
      if 1 < (saveData s.customer_details).length then
        let db' := CustomerDatabase.save_customer st.db nv.toStr s.business_id
          (saveData s.customer_details)
        { st with db := db' }
      else st

/-- Embeds `update_customer_details` of memory.py (lines 45-58): silent
no-op for an unknown session id; otherwise store each accepted detail
under its normalized key and finish with `_save_to_db`. -/
def update_customer_details (st : SmartMemoryState) (session_id : String)
    (details : List (String × Value)) : SmartMemoryState :=
  match dget st.sessions session_id with
  | none => st
  | some s =>
    let current := details.foldl storeDetail s.customer_details
    let s' := { s with customer_details := current }
    let st' := { st with sessions := dset st.sessions session_id s' }
    save_to_db st' session_id

/-- One iteration of the restore loop of `lookup_customer` (memory.py
lines 77-80): copy a stored value only when it is truthy and the key is
not yet in the session dict. -/
def restoreDetail (cur : List (String × Value)) (kv : String × Value) :
    List (String × Value) :=
  if kv.2.truthy && !(dhas cur kv.1) then dset cur kv.1 kv.2 else cur

/-- Embeds `lookup_customer` of memory.py (lines 66-83). -/
def lookup_customer (st : SmartMemoryState) (session_id name : String) :
    SmartMemoryState × Bool :=
  match dget st.sessions session_id with
  | none => (st, false)
  | some s =>
    if name = "" then (st, false)
    else
      match CustomerDatabase.find_customer st.db name s.business_id with
      | none => (st, false)
      | some stored =>
        let current := stored.foldl restoreDetail s.customer_details
        let current := dset current "is_returning_customer" (.bool true)
        let s' := { s with customer_details := current }
        ({ st with sessions := dset st.sessions session_id s' }, true)

end SmartMemory

/-- The fixed fallback answer substituted by `process_message_parallel`
when `response_generator` raises (memory.py line 251). -/
def fallbackResponse : String :=
  "I\x27m sorry, I\x27m having trouble processing that. Could you try again?"

/-- Python truthiness of a `dict.get(key)` result (absent means `None`,
which is falsy). -/
def pyGetTruthy (o : Option Value) : Bool :=
  match o with
  | some v => v.truthy
  | none => false

/-- Embeds the returning-customer lookup of memory.py lines 228-234: if
the extracted facts carry a truthy name (`name or full_name or
customer_name`) and the session is not already flagged returning, run
`lookup_customer` on that name. -/
def lookupPhase (st : SmartMemoryState) (session_id business_id : String)
    (ex : List (String × Value)) : SmartMemoryState :=
  match SmartMemory.pyOr (dget ex "name")
      (SmartMemory.pyOr (dget ex "full_name") (dget ex "customer_name")) with
  | none => st
  | some nv =>
    if nv.truthy then
      if !(pyGetTruthy (dget ((dget st.sessions session_id).getD ⟨business_id, [], []⟩).customer_details "is_returning_customer")) then
        (SmartMemory.lookup_customer st session_id nv.toStr).1
      else st
    else st

/-- Embeds step 1 of `process_message_parallel` (memory.py lines
220-239): on a successful non-empty extraction, look the customer up and
merge the extracted facts in; an extraction failure (`none`) is caught
and skipped. -/
def extractionPhase (st : SmartMemoryState) (session_id business_id : String)
    (extracted : Option (List (String × Value))) : SmartMemoryState :=
  match extracted with
  | none => st
  | some ex =>
    if ex.isEmpty then st
    else SmartMemory.update_customer_details (lookupPhase st session_id business_id ex) session_id ex

/-- Embeds `process_message_parallel` of memory.py (lines 196-257), with
the two fallible collaborators as explicit parameters: `extracted = none`
models the extraction block raising (caught at line 238), and
`respGen = none` models `response_generator` raising (caught at line
249). The history slice and context strings passed to those
collaborators do not influence the state transition and are omitted. -/
def process_message_parallel (st : SmartMemoryState)
    (session_id business_id message : String)
    (extracted : Option (List (String × Value)))
    (respGen : Option String) : SmartMemoryState × String :=
  let st1 := (SmartMemory.get_session st session_id business_id).1
  let st2 := extractionPhase st1 session_id business_id extracted
  let response :=
    match respGen with
    | some r => r
    | none => fallbackResponse
  let st3 := SmartMemory.add_message st2 session_id "user" message
  let st4 := SmartMemory.add_message st3 session_id "assistant" response
  (st4, response)

/-! Deterministic name extraction of
`ConversationManager._extract_customer_info` (conversation.py lines
100-148) and the tool classifier `should_use_tools`
(src/services/tools.py lines 160-193). -/

/-- Tail of the tokenizer: `cur` holds the characters of the token in
progress, in reverse. -/
def splitWsAux : List Char → List Char → List String
  | [], cur => if cur.isEmpty then [] else [String.mk cur.reverse]
  | c :: cs, cur =>
    if c.isWhitespace then
      if cur.isEmpty then splitWsAux cs []
      else String.mk cur.reverse :: splitWsAux cs []
    else splitWsAux cs (c :: cur)

/-- Embeds Python `str.split()` (no argument): split on runs of
whitespace, discarding empty tokens; a preceding `.strip()` is thereby
absorbed. -/
def splitWs (cs : List Char) : List String := splitWsAux cs []

/-- The characters removed by `word.strip(".,!?")`. -/
def isStripChar (c : Char) : Bool :=
  c = '.' || c = ',' || c = '!' || c = '?'

/-- Embeds `word.strip(".,!?")`: drop those characters from both ends. -/
def stripPunct (w : String) : String :=
  String.mk (((w.toList.dropWhile isStripChar).reverse.dropWhile isStripChar).reverse)

/-- The stop-word set of conversation.py lines 107-113. -/
def stop_words : List String :=
  ["what", "whats", "what\x27s", "when", "where", "how", "why", "which", "who",
   "can", "could", "would", "will", "do", "does", "did", "is", "are", "was",
   "were", "the", "and", "or", "but", "for", "to", "at", "on", "in", "i",
   "my", "me", "want", "need", "have", "had", "reservation", "appointment",
   "booking", "book", "table", "dinner", "lunch", "breakfast", "please",
   "thanks", "make", "call", "calling", "check", "looking", "like", "just",
   "give", "tell", "show", "info", "information", "details", "about"]

/-- Embeds `w[0].isupper()` on a token. -/
def firstUpper (w : String) : Bool :=
  match w.toList with
  | [] => false
  | c :: _ => c.isUpper

/-- The introduction phrases of conversation.py lines 101-104. -/
def name_patterns : List String :=
  ["my name is ", "i\x27m ", "i am ", "this is ", "call me ",
   "name\x27s ", "it\x27s ", "the name is ", "name is "]

/-- Lowest index at which `sub` occurs in a character list (Python
`str.find` restricted to present substrings). -/
def subIdx (sub : List Char) : List Char → Option Nat
  | [] => if sub.isEmpty then some 0 else none
  | c :: t => if sub.isPrefixOf (c :: t) then some 0 else (subIdx sub t).map (· + 1)

/-- Embeds the token loop of conversation.py lines 135-144: walk up to
the given tokens, stripping punctuation, stopping at an empty or
stop-word token, and keeping tokens whose first letter is uppercase. -/
def collectName : List String → List String
  | [] => []
  | w :: rest =>
    let clean := stripPunct w
    if clean = "" ∨ stop_words.contains (lowerStr clean) then []
    else if firstUpper clean then clean :: collectName rest
    else []

/-- Embeds the introduction-phrase branch of conversation.py lines
128-148: first phrase found in the lowercased message that yields a
nonempty name wins. -/
def namePatternsLoop (message msgL : String) : List String → Option String
  | [] => none
  | p :: ps =>
    match subIdx p.toList msgL.toList with
    | none => namePatternsLoop message msgL ps
    | some i =>
      let remaining := trimStr (String.mk (message.toList.drop (i + p.length)))
      let ws := splitWs remaining.toList
      let potential := collectName (ws.take 3)
      if potential.isEmpty then namePatternsLoop message msgL ps
      else some (String.intercalate " " potential)

/-- Models the name fact produced by `_extract_customer_info`
(conversation.py lines 100-148): the value stored under `name`, when
any. -/
def extractNameFact (message : String) : Option String :=
  let ws := splitWs message.toList
  if ws.length ≤ 3 ∧ ws.all firstUpper then
    let potential := (ws.map stripPunct).filter (fun c => !(stop_words.contains (lowerStr c)))
    if potential ≠ [] ∧ 1 < (String.intercalate " " potential).length then
      some (String.intercalate " " potential)
    else none
  else namePatternsLoop message (lowerStr message) name_patterns

/-- Python substring test `sub in s`. -/
def strHas (s sub : String) : Bool :=
  (s.toList.tails).any (fun t => sub.toList.isPrefixOf t)

/-- The research indicators of src/services/tools.py lines 169-176. -/
def research_keywords : List String :=
  ["what is", "tell me about", "how do i get to", "directions",
   "where is", "nearby", "close to", "around here",
   "weather", "traffic", "news", "latest",
   "reviews", "ratings", "best", "recommended",
   "hours", "open", "closed", "website", "phone number",
   "price of", "cost of", "how much is"]

/-- The booking indicators of src/services/tools.py lines 181-186. -/
def booking_keywords : List String :=
  ["book", "reserve", "appointment", "schedule",
   "available", "availability", "can i get",
   "sign up", "register", "membership"]

def needs_research (message : String) : Bool :=
  research_keywords.any (fun kw => strHas (lowerStr message) kw)

def needs_booking (message : String) : Bool :=
  booking_keywords.any (fun kw => strHas (lowerStr message) kw)

/-- Embeds `should_use_tools` of src/services/tools.py (lines 160-193). -/
def should_use_tools (message : String) : Bool × List String :=
  let tools := if needs_research message then ["web_search", "parallel_search"] else []
  (needs_research message || needs_booking message, tools)

/-! Supporting lemmas about the embedded operations. -/

/-- The acceptance criterion stated by the spec for `update_facts`
values: non-empty, not blank after trimming, and not (case-insensitively)
"none", "null" or "unknown". The code criterion `acceptValue` is
strictly stronger (it also rejects "n/a"). -/
def claimAcceptable (v : Value) : Bool :=
  match v with
  | .str s => (s != "") && (trimStr s != "") && !(["none", "null", "unknown"].contains (lowerStr s))
  | .bool b => b

/-- The lower_snake_case shape stated by the spec for fact keys: no
uppercase letter, no space, no hyphen. -/
def lowerSnakeKey (k : String) : Bool :=
  k.toList.all (fun c => !c.isUpper && (c != ' ') && (c != '-'))

/-- Appending a sequence of turns through `add_message`. -/
def addTurns (st : SmartMemoryState) (session_id : String)
    (turns : List (String × String)) : SmartMemoryState :=
  turns.foldl (fun acc rc => SmartMemory.add_message acc session_id rc.1 rc.2) st

theorem dhas_nil {α : Type} (k : String) : dhas ([] : List (String × α)) k = false := rfl

theorem dget_nil {α : Type} (k : String) : dget ([] : List (String × α)) k = none := rfl

theorem dget_cons {α : Type} (p : String × α) (d : List (String × α)) (k : String) :
    dget (p :: d) k = if p.1 = k then some p.2 else dget d k := by
  unfold dget
  by_cases h : p.1 = k
  · rw [List.find?_cons_of_pos _ (by simpa using h)]; simp [h]
  · rw [List.find?_cons_of_neg _ (by simpa using h)]; simp [h]

theorem dhas_cons {α : Type} (p : String × α) (d : List (String × α)) (k : String) :
    dhas (p :: d) k = (p.1 == k || dhas d k) := by
  simp [dhas, List.any]

theorem dhas_eq_isSome {α : Type} (d : List (String × α)) (k : String) :
    dhas d k = (dget d k).isSome := by
  induction d with
  | nil => rfl
  | cons p t ih =>
    rw [dhas_cons, dget_cons]
    by_cases h : p.1 = k <;> simp [h, ih]

theorem dget_eq_none_of_not_dhas {α : Type} {d : List (String × α)} {k : String}
    (h : dhas d k = false) : dget d k = none := by
  rw [dhas_eq_isSome] at h
  cases hg : dget d k with
  | none => rfl
  | some v => rw [hg] at h; simp at h

theorem dget_append {α : Type} (d e : List (String × α)) (k : String) :
    dget (d ++ e) k = ((dget d k).or (dget e k)) := by
  induction d with
  | nil => simp [dget_nil]
  | cons p t ih =>
    rw [List.cons_append, dget_cons, dget_cons]
    by_cases h : p.1 = k <;> simp [h, ih]

theorem dget_map_update {α : Type} (d : List (String × α)) (k k' : String) (v : α) :
    dget (d.map (fun p => if p.1 == k then (k, v) else p)) k' =
      if k' = k then (if dhas d k then some v else none) else dget d k' := by
  induction d with
  | nil => by_cases h : k' = k <;> simp [dget_nil, dhas_nil, h]
  | cons p t ih =>
    simp only [beq_iff_eq] at ih
    by_cases hp : p.1 = k
    · have hfp : (if (p.1 == k) = true then (k, v) else p) = (k, v) := by
        simp [hp]
      rw [List.map_cons, hfp, dget_cons, dget_cons, dhas_cons]
      by_cases hk' : k' = k
      · subst hk'
        simp [hp]
      · simp [show ¬((k : String) = k') from fun h => hk' h.symm, hk', ih,
          show ¬(p.1 = k') from by rw [hp]; exact fun h => hk' h.symm]
    · have hfp : (if (p.1 == k) = true then (k, v) else p) = p := by
        simp [hp]
      rw [List.map_cons, hfp, dget_cons, dget_cons, dhas_cons]
      by_cases hk' : k' = k
      · subst hk'
        simp [hp, ih]
      · by_cases hq : p.1 = k' <;> simp [hq, hk', ih]

/-- The fundamental read-after-write law for the dict model. -/
theorem dget_dset {α : Type} (d : List (String × α)) (k k' : String) (v : α) :
    dget (dset d k v) k' = if k' = k then some v else dget d k' := by
  unfold dset
  by_cases hmem : dhas d k = true
  · rw [if_pos hmem, dget_map_update, hmem]
    simp
  · rw [if_neg hmem]
    rw [dget_append]
    by_cases hk : k' = k
    · subst hk
      rw [dget_eq_none_of_not_dhas (by simpa using hmem)]
      simp [dget_cons]
    · simp only [if_neg hk]
      rw [dget_cons]
      simp only [show ¬((k : String) = k') from fun h => hk h.symm, if_false, dget_nil]
      cases dget d k' <;> rfl

/-- Every binding of `dset d k v` is either the new binding's key or one
of the old bindings. -/
theorem mem_dset {α : Type} {d : List (String × α)} {k : String} {v : α}
    {p : String × α} (hp : p ∈ dset d k v) : p.1 = k ∨ p ∈ d := by
  unfold dset at hp
  by_cases hmem : dhas d k = true
  · rw [if_pos hmem] at hp
    rcases List.mem_map.mp hp with ⟨q, hq, hfq⟩
    by_cases h : q.1 = k
    · left; rw [← hfq]; simp [h]
    · right; rw [← hfq]; simpa [h] using hq
  · rw [if_neg hmem] at hp
    rcases List.mem_append.mp hp with h | h
    · right; exact h
    · left; simp at h; rw [h]

theorem length_lastN {α : Type} (n : Nat) (l : List α) :
    (lastN n l).length = min n l.length := by
  simp [lastN, List.length_drop]
  omega

theorem lastN_of_le {α : Type} {n : Nat} {l : List α} (h : l.length ≤ n) :
    lastN n l = l := by
  unfold lastN
  rw [Nat.sub_eq_zero_of_le h, List.drop_zero]

theorem lastN_append_of_le {α : Type} {n : Nat} (a : List α) {b : List α}
    (h : n ≤ b.length) : lastN n (a ++ b) = lastN n b := by
  unfold lastN
  rw [List.length_append, show a.length + b.length - n = a.length + (b.length - n) by omega,
    List.drop_append]

/-- Truncating, appending more, and truncating again is the same as
truncating once at the end. -/
theorem lastN_absorb {α : Type} (n : Nat) (l m : List α) :
    lastN n (lastN n l ++ m) = lastN n (l ++ m) := by
  by_cases h : l.length ≤ n
  · rw [lastN_of_le h]
  · have h1 : n ≤ (lastN n l).length := by rw [length_lastN]; omega
    have h2 : l ++ m = l.take (l.length - n) ++ (lastN n l ++ m) := by
      rw [← List.append_assoc]
      unfold lastN
      rw [List.take_append_drop]
    calc lastN n (lastN n l ++ m)
        = lastN n (l.take (l.length - n) ++ (lastN n l ++ m)) :=
          (lastN_append_of_le _ (by rw [List.length_append]; omega)).symm
      _ = lastN n (l ++ m) := by rw [← h2]

theorem lastN_append_single {α : Type} {n : Nat} (h : 1 ≤ n) (l : List α) (x : α) :
    lastN n (l ++ [x]) = lastN (n - 1) l ++ [x] := by
  unfold lastN
  rw [List.length_append, List.length_singleton,
    show l.length + 1 - n = l.length - (n - 1) by omega,
    List.drop_append_of_le_length (by omega)]

theorem save_to_db_sessions (st : SmartMemoryState) (session_id : String) :
    (SmartMemory.save_to_db st session_id).sessions = st.sessions := by
  unfold SmartMemory.save_to_db
  split
  · rfl
  · split
    · rfl
    · split
      · rfl
      · rfl

theorem get_session_sessions_some (st : SmartMemoryState) (session_id business_id : String) :
    ∃ s, dget (SmartMemory.get_session st session_id business_id).1.sessions session_id = some s := by
  unfold SmartMemory.get_session
  cases h : dget st.sessions session_id with
  | some s => exact ⟨s, h⟩
  | none =>
    refine ⟨⟨business_id, [], []⟩, ?_⟩
    simp [dget_dset]

theorem update_sessions_some {st : SmartMemoryState} {session_id : String}
    {s : Session} (details : List (String × Value))
    (h : dget st.sessions session_id = some s) :
    dget (SmartMemory.update_customer_details st session_id details).sessions session_id =
      some { s with customer_details := details.foldl SmartMemory.storeDetail s.customer_details } := by
  unfold SmartMemory.update_customer_details
  rw [h]
  simp only [save_to_db_sessions]
  simp [dget_dset]

theorem lookup_sessions_some {st : SmartMemoryState} {session_id : String}
    {s : Session} (name : String) (h : dget st.sessions session_id = some s) :
    ∃ s', dget (SmartMemory.lookup_customer st session_id name).1.sessions session_id = some s' := by
  unfold SmartMemory.lookup_customer
  rw [h]
  by_cases hn : name = ""
  · simp only [if_pos hn]
    exact ⟨s, h⟩
  · simp only [if_neg hn]
    cases hfc : CustomerDatabase.find_customer st.db name s.business_id with
    | none => exact ⟨s, h⟩
    | some stored =>
      refine ⟨{ s with customer_details := dset (stored.foldl SmartMemory.restoreDetail s.customer_details) "is_returning_customer" (.bool true) }, ?_⟩
      simp [dget_dset]

theorem add_message_spec {st : SmartMemoryState} {session_id : String} {s : Session}
    (role content : String) (h : dget st.sessions session_id = some s) :
    SmartMemory.add_message st session_id role content =
      { st with sessions := dset st.sessions session_id { s with messages := lastN 20 (s.messages ++ [⟨role, content⟩]) } } := by
  unfold SmartMemory.add_message
  rw [h]

theorem addTurns_session (session_id : String) (turns : List (String × String)) :
    ∀ (st : SmartMemoryState) (s : Session), dget st.sessions session_id = some s →
    s.messages.length ≤ 20 →
    dget (addTurns st session_id turns).sessions session_id =
      some { s with messages := lastN 20 (s.messages ++ turns.map (fun rc => (⟨rc.1, rc.2⟩ : Message))) } := by
  induction turns with
  | nil =>
    intro st s h hl
    simpa [addTurns, lastN_of_le (by simpa using hl)] using h
  | cons rc rest ih =>
    intro st s h hl
    have hstep : addTurns st session_id (rc :: rest) =
        addTurns (SmartMemory.add_message st session_id rc.1 rc.2) session_id rest := rfl
    rw [hstep, add_message_spec rc.1 rc.2 h]
    have h2 := ih { st with sessions := dset st.sessions session_id { s with messages := lastN 20 (s.messages ++ [⟨rc.1, rc.2⟩]) } } { s with messages := lastN 20 (s.messages ++ [⟨rc.1, rc.2⟩]) } (by simp [dget_dset]) (by rw [length_lastN]; omega)
    rw [h2]
    simp only [lastN_absorb, List.append_assoc, List.cons_append, List.nil_append, List.map_cons]

/-! Claim theorems. -/

/-- C9: for a session id absent from the session store, `add_message`
and `update_customer_details` are silent no-ops that leave the whole
state (sessions and directory) unchanged, while `get_session` does
create the session. -/
theorem claim_C9_unknown_session_noop (st : SmartMemoryState)
    (session_id role content business_id : String)
    (details : List (String × Value))
    (h : dhas st.sessions session_id = false) :
    SmartMemory.add_message st session_id role content = st ∧
    SmartMemory.update_customer_details st session_id details = st ∧
    dhas (SmartMemory.get_session st session_id business_id).1.sessions session_id = true := by
  have hn : dget st.sessions session_id = none := dget_eq_none_of_not_dhas h
  refine ⟨?_, ?_, ?_⟩
  · unfold SmartMemory.add_message
    rw [hn]
  · unfold SmartMemory.update_customer_details
    rw [hn]
  · unfold SmartMemory.get_session
    rw [hn]
    simp [dhas_eq_isSome, dget_dset]

theorem claim_C9_unknown_session_noop_witness :
    SmartMemory.add_message ⟨[], ⟨[]⟩⟩ "s1" "user" "hello" = ⟨[], ⟨[]⟩⟩ ∧
    SmartMemory.update_customer_details ⟨[], ⟨[]⟩⟩ "s1" [("name", .str "Bob")] = ⟨[], ⟨[]⟩⟩ ∧
    dhas (SmartMemory.get_session ⟨[], ⟨[]⟩⟩ "s1" "hotel").1.sessions "s1" = true :=
  claim_C9_unknown_session_noop ⟨[], ⟨[]⟩⟩ "s1" "user" "hello" "hotel"
    [("name", .str "Bob")] (by decide)

/-- C5: starting from a fresh session (history window 20), appending 25
turns leaves exactly 20 messages in the session, and the surviving
messages are the input minus its oldest 5 turns. -/
theorem claim_C5_bounded_history (st : SmartMemoryState)
    (session_id business_id : String) (turns : List (String × String))
    (hfresh : dhas st.sessions session_id = false)
    (hlen : turns.length = 25) :
    ∃ s', dget (addTurns (SmartMemory.get_session st session_id business_id).1 session_id turns).sessions session_id = some s' ∧
      s'.messages = (turns.map (fun rc => (⟨rc.1, rc.2⟩ : Message))).drop 5 ∧
      s'.messages.length = 20 := by
  have hn : dget st.sessions session_id = none := dget_eq_none_of_not_dhas hfresh
  have hcreated : dget (SmartMemory.get_session st session_id business_id).1.sessions session_id = some ⟨business_id, [], []⟩ := by
    unfold SmartMemory.get_session
    rw [hn]
    simp [dget_dset]
  have h2 := addTurns_session session_id turns _ _ hcreated (by simp)
  refine ⟨_, h2, ?_, ?_⟩
  · show lastN 20 ([] ++ turns.map (fun rc => (⟨rc.1, rc.2⟩ : Message))) = _
    rw [List.nil_append]
    unfold lastN
    rw [List.length_map, hlen]
  · show (lastN 20 ([] ++ turns.map (fun rc => (⟨rc.1, rc.2⟩ : Message)))).length = 20
    rw [List.nil_append, length_lastN, List.length_map, hlen]
    decide

theorem claim_C5_bounded_history_witness :
    ∃ s', dget (addTurns (SmartMemory.get_session ⟨[], ⟨[]⟩⟩ "s1" "hotel").1 "s1" (List.replicate 25 ("user", "hi"))).sessions "s1" = some s' ∧
      s'.messages = ((List.replicate 25 ("user", "hi")).map (fun rc => (⟨rc.1, rc.2⟩ : Message))).drop 5 ∧
      s'.messages.length = 20 :=
  claim_C5_bounded_history ⟨[], ⟨[]⟩⟩ "s1" "hotel" (List.replicate 25 ("user", "hi"))
    (by decide) (by simp)

/-- C2 counterexample: the short acknowledgement "yes, the best" contains
none of the explicit search verbs find/search/show/what/where, yet the
classifier requests search with both search tools because the generic
keyword "best" overlaps — `should_use_tools` has no opener suppression,
so the claimed behaviour fails on this input. -/
theorem claim_C2_counterexample :
    should_use_tools "yes, the best" = (true, ["web_search", "parallel_search"]) ∧
    strHas (lowerStr "yes, the best") "find" = false ∧
    strHas (lowerStr "yes, the best") "search" = false ∧
    strHas (lowerStr "yes, the best") "show" = false ∧
    strHas (lowerStr "yes, the best") "what" = false ∧
    strHas (lowerStr "yes, the best") "where" = false := by
  decide

/-- C2 (amended): the classifier applies no conversational-opener
suppression at all — every utterance containing a research keyword is
given the search tools, whether or not an explicit search verb is
present. -/
theorem claim_C2_amended_no_suppression (message : String)
    (h : needs_research message = true) :
    should_use_tools message = (true, ["web_search", "parallel_search"]) := by
  unfold should_use_tools
  rw [h]
  simp

theorem claim_C2_amended_no_suppression_witness :
    should_use_tools "yes, the best" = (true, ["web_search", "parallel_search"]) :=
  claim_C2_amended_no_suppression "yes, the best" (by decide)

/-- C8 counterexample: the utterance "J" is a single whitespace-separated
token with an uppercase first letter and is not a stop word, yet the
extractor produces no name fact, because conversation.py line 124 also
requires the joined name to be longer than one character. -/
theorem claim_C8_counterexample :
    splitWs ("J".toList) = ["J"] ∧
    firstUpper "J" = true ∧
    stop_words.contains (lowerStr (stripPunct "J")) = false ∧
    extractNameFact "J" = none := by
  decide

/-- C8 (amended): for every utterance tokenizing to at most 3 tokens,
each with an uppercase first letter and none a stop word, whose
punctuation-stripped join is longer than one character, the extractor
returns exactly that join as the name fact. -/
theorem claim_C8_amended_name_extraction (message : String)
    (hne : splitWs message.toList ≠ [])
    (hlen : (splitWs message.toList).length ≤ 3)
    (hupper : ∀ w ∈ splitWs message.toList, firstUpper w = true)
    (hstop : ∀ w ∈ splitWs message.toList, stop_words.contains (lowerStr (stripPunct w)) = false)
    (hjoin : 1 < (String.intercalate " " ((splitWs message.toList).map stripPunct)).length) :
    extractNameFact message =
      some (String.intercalate " " ((splitWs message.toList).map stripPunct)) := by
  unfold extractNameFact
  rw [if_pos ⟨hlen, by rw [List.all_eq_true]; exact hupper⟩]
  have hfilter : ((splitWs message.toList).map stripPunct).filter
      (fun c => !(stop_words.contains (lowerStr c))) = (splitWs message.toList).map stripPunct := by
    rw [List.filter_eq_self]
    intro c hc
    rcases List.mem_map.mp hc with ⟨w, hw, rfl⟩
    rw [hstop w hw]
    rfl
  simp only [hfilter]
  rw [if_pos ⟨by simpa using hne, hjoin⟩]

theorem claim_C8_amended_name_extraction_witness :
    extractNameFact "Maria Lopez" =
      some (String.intercalate " " ((splitWs ("Maria Lopez".toList)).map stripPunct)) :=
  claim_C8_amended_name_extraction "Maria Lopez" (by decide) (by decide)
    (by decide) (by decide) (by decide)

/-! Fold lemmas for the directory merge loop of `save_customer`. -/
theorem foldSave_preserves (facts : List (String × Value)) :
    ∀ (base : List (String × Value)) (k : String), k ∉ facts.map Prod.fst →
    dget (facts.foldl (fun e kv => if kv.2.truthy then dset e kv.1 kv.2 else e) base) k =
      dget base k := by
  induction facts with
  | nil => intro base k _; rfl
  | cons kv rest ih =>
    intro base k hk
    simp only [List.map_cons, List.mem_cons, not_or] at hk
    obtain ⟨hk1, hk2⟩ := hk
    rw [List.foldl_cons]
    by_cases ht : kv.2.truthy = true
    · rw [if_pos ht, ih _ _ hk2, dget_dset, if_neg hk1]
    · rw [if_neg ht, ih _ _ hk2]

theorem foldSave_dget (facts : List (String × Value)) :
    ∀ (base : List (String × Value)) (kv : String × Value), kv ∈ facts →
    (facts.map Prod.fst).Nodup → kv.2.truthy = true →
    dget (facts.foldl (fun e kv => if kv.2.truthy then dset e kv.1 kv.2 else e) base) kv.1 =
      some kv.2 := by
  induction facts with
  | nil => intro base kv hmem; exact absurd hmem (List.not_mem_nil kv)
  | cons p rest ih =>
    intro base kv hmem hnodup ht
    rw [List.map_cons, List.nodup_cons] at hnodup
    obtain ⟨hp1, hp2⟩ := hnodup
    rw [List.foldl_cons]
    rcases List.mem_cons.mp hmem with rfl | hmem'
    · rw [if_pos ht, foldSave_preserves rest _ _ hp1, dget_dset, if_pos rfl]
    · have hne : kv.1 ≠ p.1 := by
        intro he
        exact hp1 (he ▸ List.mem_map_of_mem Prod.fst hmem')
      by_cases htp : p.2.truthy = true
      · rw [if_pos htp]
        exact ih _ _ hmem' hp2 ht
      · rw [if_neg htp]
        exact ih _ _ hmem' hp2 ht

/-- C7: on any directory, saving a customer with a nonempty name and then
finding them under any casing of the same normalized name returns an
entry holding the original-case name, the business id, and every truthy
saved fact (for keys other than the refreshed `name`/`business_id`);
saving with an empty name leaves the directory unchanged. -/
theorem claim_C7_directory_round_trip (db : CustomerDatabase)
    (name business_id q : String) (facts : List (String × Value))
    (hname : name ≠ "") (hq : q ≠ "")
    (hnorm : CustomerDatabase.normalize_name q = CustomerDatabase.normalize_name name)
    (hnodup : (facts.map Prod.fst).Nodup) :
    (∃ e, CustomerDatabase.find_customer (CustomerDatabase.save_customer db name business_id facts) q business_id = some e ∧
      dget e "name" = some (.str name) ∧
      dget e "business_id" = some (.str business_id) ∧
      ∀ kv ∈ facts, kv.2.truthy = true → kv.1 ≠ "name" → kv.1 ≠ "business_id" →
        dget e kv.1 = some kv.2) ∧
    CustomerDatabase.save_customer db "" business_id facts = db := by
  constructor
  · simp only [CustomerDatabase.save_customer, CustomerDatabase.find_customer,
      if_neg hname, if_neg hq, hnorm]
    refine ⟨_, by rw [dget_dset, if_pos rfl], ?_, ?_, ?_⟩
    · rw [dget_dset, if_neg (by decide), dget_dset, if_pos rfl]
    · rw [dget_dset, if_pos rfl]
    · intro kv hkv ht h1 h2
      rw [dget_dset, if_neg h2, dget_dset, if_neg h1]
      exact foldSave_dget facts _ kv hkv hnodup ht
  · simp [CustomerDatabase.save_customer]

theorem claim_C7_directory_round_trip_witness :
    (∃ e, CustomerDatabase.find_customer (CustomerDatabase.save_customer ⟨[]⟩ "Alice" "hotel" [("phone", .str "555-1111")]) "alice" "hotel" = some e ∧
      dget e "name" = some (.str "Alice") ∧
      dget e "business_id" = some (.str "hotel") ∧
      ∀ kv ∈ [(("phone" : String), Value.str "555-1111")], kv.2.truthy = true → kv.1 ≠ "name" → kv.1 ≠ "business_id" →
        dget e kv.1 = some kv.2) ∧
    CustomerDatabase.save_customer ⟨[]⟩ "" "hotel" [("phone", .str "555-1111")] = ⟨[]⟩ :=
  claim_C7_directory_round_trip ⟨[]⟩ "Alice" "hotel" "alice" [("phone", .str "555-1111")]
    (by decide) (by decide) (by decide) (by decide)

theorem lookupPhase_sessions_some {st : SmartMemoryState} {session_id : String}
    (business_id : String) (ex : List (String × Value)) {s : Session}
    (h : dget st.sessions session_id = some s) :
    ∃ s', dget (lookupPhase st session_id business_id ex).sessions session_id = some s' := by
  unfold lookupPhase
  split
  · exact ⟨s, h⟩
  · split
    · split
      · exact lookup_sessions_some _ h
      · exact ⟨s, h⟩
    · exact ⟨s, h⟩

theorem extractionPhase_sessions_some {st : SmartMemoryState} {session_id : String}
    (business_id : String) (extracted : Option (List (String × Value))) {s : Session}
    (h : dget st.sessions session_id = some s) :
    ∃ s', dget (extractionPhase st session_id business_id extracted).sessions session_id = some s' := by
  unfold extractionPhase
  split
  · exact ⟨s, h⟩
  · split
    · exact ⟨s, h⟩
    · obtain ⟨s'', h''⟩ := lookupPhase_sessions_some business_id _ h
      exact ⟨_, update_sessions_some _ h''⟩

/-- Appending two messages to a window-truncated history always leaves
those two messages as the final suffix. -/
theorem lastN_two_appends {α : Type} (m : List α) (u a : α) :
    lastN 20 (lastN 20 (m ++ [u]) ++ [a]) = lastN 18 (lastN 19 m) ++ [u, a] := by
  have e1 : lastN 20 (m ++ [u]) = lastN 19 m ++ [u] := by
    simpa using @lastN_append_single α 20 (by omega) m u
  rw [e1]
  have e2 : lastN 20 ((lastN 19 m ++ [u]) ++ [a]) = lastN 19 (lastN 19 m ++ [u]) ++ [a] := by
    simpa using @lastN_append_single α 20 (by omega) (lastN 19 m ++ [u]) a
  rw [e2]
  have e3 : lastN 19 (lastN 19 m ++ [u]) = lastN 18 (lastN 19 m) ++ [u] := by
    simpa using @lastN_append_single α 19 (by omega) (lastN 19 m) u
  rw [e3, List.append_assoc]
  rfl

/-- Recording a failed turn: starting from any state whose session
exists, appending the user utterance and the fallback answer through
`add_message` leaves a history ending in exactly those two messages. -/
theorem record_turn_suffix (X : SmartMemoryState) (session_id message answer : String)
    {s2 : Session} (h2 : dget X.sessions session_id = some s2) :
    ∃ s' p, dget (SmartMemory.add_message (SmartMemory.add_message X session_id "user" message) session_id "assistant" answer).sessions session_id = some s' ∧
      s'.messages = p ++ [⟨"user", message⟩, ⟨"assistant", answer⟩] := by
  rw [add_message_spec "user" message h2]
  have h3 : dget (dset X.sessions session_id { s2 with messages := lastN 20 (s2.messages ++ [⟨"user", message⟩]) }) session_id = some { s2 with messages := lastN 20 (s2.messages ++ [⟨"user", message⟩]) } := by
    rw [dget_dset, if_pos rfl]
  rw [add_message_spec "assistant" answer h3]
  refine ⟨{ s2 with messages := lastN 20 (lastN 20 (s2.messages ++ [⟨"user", message⟩]) ++ [⟨"assistant", answer⟩]) }, lastN 18 (lastN 19 s2.messages), by rw [dget_dset, if_pos rfl], ?_⟩
  exact lastN_two_appends s2.messages ⟨"user", message⟩ ⟨"assistant", answer⟩

/-- C4: when the response generator fails (modelled by `respGen = none`),
the orchestrator returns the fixed apologetic fallback string instead of
propagating the failure, and the turn is still recorded: the session
history ends with the customer utterance followed by the fallback
answer. -/
theorem claim_C4_gateway_failure (st : SmartMemoryState)
    (session_id business_id message : String)
    (extracted : Option (List (String × Value))) :
    (process_message_parallel st session_id business_id message extracted none).2 = fallbackResponse ∧
    ∃ s' p, dget (process_message_parallel st session_id business_id message extracted none).1.sessions session_id = some s' ∧
      s'.messages = p ++ [⟨"user", message⟩, ⟨"assistant", fallbackResponse⟩] := by
  obtain ⟨s1, h1⟩ := get_session_sessions_some st session_id business_id
  obtain ⟨s2, h2⟩ := extractionPhase_sessions_some business_id extracted h1
  exact ⟨rfl, record_turn_suffix _ session_id message fallbackResponse h2⟩

/-- The restore loop of `lookup_customer`: when every stored value is
truthy, the merged dict reads as "session value first, stored value for
keys the session lacks". -/
theorem foldRestore_dget (stored : List (String × Value)) :
    ∀ (cur : List (String × Value)) (k : String),
    (∀ kv ∈ stored, kv.2.truthy = true) →
    dget (stored.foldl SmartMemory.restoreDetail cur) k = (dget cur k).or (dget stored k) := by
  induction stored with
  | nil =>
    intro cur k _
    rw [List.foldl_nil, dget_nil]
    cases dget cur k <;> rfl
  | cons p rest ih =>
    intro cur k htruthy
    have hp : p.2.truthy = true := htruthy p (List.mem_cons_self p rest)
    have hrest : ∀ kv ∈ rest, kv.2.truthy = true :=
      fun kv hkv => htruthy kv (List.mem_cons_of_mem p hkv)
    rw [List.foldl_cons]
    by_cases hh : dhas cur p.1 = true
    · have hstep : SmartMemory.restoreDetail cur p = cur := by
        unfold SmartMemory.restoreDetail
        rw [hp, hh]
        rfl
      rw [hstep, ih cur k hrest, dget_cons]
      by_cases hk : p.1 = k
      · subst hk
        have hsome : (dget cur p.1).isSome := by rw [← dhas_eq_isSome]; exact hh
        cases ho : dget cur p.1 with
        | none => rw [ho] at hsome; simp at hsome
        | some v => simp
      · rw [if_neg hk]
    · have hstep : SmartMemory.restoreDetail cur p = dset cur p.1 p.2 := by
        unfold SmartMemory.restoreDetail
        rw [hp, Bool.not_eq_true] at *
        rw [hh]
        rfl
      rw [hstep, ih _ k hrest, dget_dset, dget_cons]
      have hnone : dget cur p.1 = none := dget_eq_none_of_not_dhas (by simpa using hh)
      by_cases hk : k = p.1
      · subst hk
        rw [hnone, if_pos rfl, if_pos rfl]
        rfl
      · rw [if_neg hk, if_neg (fun he => hk he.symm)]

/-- C1: for a session whose fact set holds no empty values (the reachable
states of `update_customer_details` and `lookup_customer`, where
"absent or empty" coincides with "absent"), a successful directory
lookup copies a stored value exactly for the keys the session lacks,
never overwrites a session-observed value, and sets the
`is_returning_customer` flag. -/
theorem claim_C1_lookup_merge_precedence (st : SmartMemoryState)
    (session_id name : String) (s : Session) (stored : List (String × Value))
    (hs : dget st.sessions session_id = some s)
    (hname : name ≠ "")
    (hfound : CustomerDatabase.find_customer st.db name s.business_id = some stored)
    (_hsess : ∀ kv ∈ s.customer_details, kv.2.truthy = true)
    (hstored : ∀ kv ∈ stored, kv.2.truthy = true) :
    (SmartMemory.lookup_customer st session_id name).2 = true ∧
    ∃ s', dget (SmartMemory.lookup_customer st session_id name).1.sessions session_id = some s' ∧
      dget s'.customer_details "is_returning_customer" = some (.bool true) ∧
      ∀ k, k ≠ "is_returning_customer" →
        dget s'.customer_details k = (dget s.customer_details k).or (dget stored k) := by
  have hlook : SmartMemory.lookup_customer st session_id name =
      ({ st with sessions := dset st.sessions session_id { s with customer_details := dset (stored.foldl SmartMemory.restoreDetail s.customer_details) "is_returning_customer" (.bool true) } }, true) := by
    unfold SmartMemory.lookup_customer
    simp only [hs, if_neg hname, hfound]
  rw [hlook]
  refine ⟨rfl, { s with customer_details := dset (stored.foldl SmartMemory.restoreDetail s.customer_details) "is_returning_customer" (.bool true) }, by rw [dget_dset, if_pos rfl], ?_, ?_⟩
  · show dget (dset (stored.foldl SmartMemory.restoreDetail s.customer_details) "is_returning_customer" (.bool true)) "is_returning_customer" = some (.bool true)
    rw [dget_dset, if_pos rfl]
  · intro k hk
    show dget (dset (stored.foldl SmartMemory.restoreDetail s.customer_details) "is_returning_customer" (.bool true)) k = _
    rw [dget_dset, if_neg hk]
    exact foldRestore_dget stored s.customer_details k hstored

theorem claim_C1_lookup_merge_precedence_witness :
    (SmartMemory.lookup_customer ⟨[("s1", ⟨"restaurant", [("party_size", .str "4")], []⟩)], ⟨[("restaurant:bob", [("party_size", .str "2"), ("phone", .str "5")])]⟩⟩ "s1" "Bob").2 = true ∧
    ∃ s', dget (SmartMemory.lookup_customer ⟨[("s1", ⟨"restaurant", [("party_size", .str "4")], []⟩)], ⟨[("restaurant:bob", [("party_size", .str "2"), ("phone", .str "5")])]⟩⟩ "s1" "Bob").1.sessions "s1" = some s' ∧
      dget s'.customer_details "is_returning_customer" = some (.bool true) ∧
      ∀ k, k ≠ "is_returning_customer" →
        dget s'.customer_details k = (dget [("party_size", Value.str "4")] k).or (dget [("party_size", Value.str "2"), ("phone", Value.str "5")] k) :=
  claim_C1_lookup_merge_precedence
    ⟨[("s1", ⟨"restaurant", [("party_size", .str "4")], []⟩)], ⟨[("restaurant:bob", [("party_size", .str "2"), ("phone", .str "5")])]⟩⟩
    "s1" "Bob" ⟨"restaurant", [("party_size", .str "4")], []⟩
    [("party_size", .str "2"), ("phone", .str "5")]
    (by decide) (by decide) (by decide) (by decide) (by decide)

/-! Fold lemmas for the storing loop of `update_customer_details`. -/
theorem foldStore_skip (details : List (String × Value)) :
    ∀ cur, (∀ kv ∈ details, SmartMemory.acceptValue kv.2 = false) →
    details.foldl SmartMemory.storeDetail cur = cur := by
  induction details with
  | nil => intro cur _; rfl
  | cons p rest ih =>
    intro cur hall
    rw [List.foldl_cons]
    have hstep : SmartMemory.storeDetail cur p = cur := by
      unfold SmartMemory.storeDetail
      rw [hall p (List.mem_cons_self p rest)]
      rfl
    rw [hstep]
    exact ih cur (fun kv hkv => hall kv (List.mem_cons_of_mem p hkv))

theorem foldStore_changed (details : List (String × Value)) :
    ∀ cur k, dget (details.foldl SmartMemory.storeDetail cur) k ≠ dget cur k →
    ∃ kv ∈ details, SmartMemory.acceptValue kv.2 = true ∧ SmartMemory.normalizeKey kv.1 = k := by
  induction details with
  | nil => intro cur k h; exact absurd rfl h
  | cons p rest ih =>
    intro cur k h
    rw [List.foldl_cons] at h
    by_cases ha : SmartMemory.acceptValue p.2 = true
    · have hstep : SmartMemory.storeDetail cur p = dset cur (SmartMemory.normalizeKey p.1) p.2 := by
        unfold SmartMemory.storeDetail
        rw [if_pos ha]
      rw [hstep] at h
      by_cases hch : dget (rest.foldl SmartMemory.storeDetail (dset cur (SmartMemory.normalizeKey p.1) p.2)) k = dget (dset cur (SmartMemory.normalizeKey p.1) p.2) k
      · rw [hch, dget_dset] at h
        by_cases hk : k = SmartMemory.normalizeKey p.1
        · exact ⟨p, List.mem_cons_self p rest, ha, hk.symm⟩
        · rw [if_neg hk] at h
          exact absurd rfl h
      · obtain ⟨kv, hkv, hacc, hnorm⟩ := ih _ _ hch
        exact ⟨kv, List.mem_cons_of_mem p hkv, hacc, hnorm⟩
    · have hstep : SmartMemory.storeDetail cur p = cur := by
        unfold SmartMemory.storeDetail
        rw [if_neg ha]
      rw [hstep] at h
      obtain ⟨kv, hkv, hacc, hnorm⟩ := ih _ _ h
      exact ⟨kv, List.mem_cons_of_mem p hkv, hacc, hnorm⟩

theorem foldStore_mem (details : List (String × Value)) :
    ∀ cur kv', kv' ∈ details.foldl SmartMemory.storeDetail cur →
    kv' ∈ cur ∨ ∃ kv ∈ details, kv'.1 = SmartMemory.normalizeKey kv.1 := by
  induction details with
  | nil => intro cur kv' h; exact Or.inl h
  | cons p rest ih =>
    intro cur kv' h
    rw [List.foldl_cons] at h
    rcases ih _ _ h with hin | ⟨kv, hkv, heq⟩
    · unfold SmartMemory.storeDetail at hin
      by_cases ha : SmartMemory.acceptValue p.2 = true
      · rw [if_pos ha] at hin
        rcases mem_dset hin with heq | hin'
        · exact Or.inr ⟨p, List.mem_cons_self p rest, heq⟩
        · exact Or.inl hin'
      · rw [if_neg ha] at hin
        exact Or.inl hin
    · exact Or.inr ⟨kv, List.mem_cons_of_mem p hkv, heq⟩

/-- The code filter `acceptValue` implies the weaker criterion stated in
the spec (which does not mention "n/a"). -/
theorem acceptValue_imp_claimAcceptable {v : Value}
    (h : SmartMemory.acceptValue v = true) : claimAcceptable v = true := by
  cases v with
  | bool b =>
    cases b
    · simp [SmartMemory.acceptValue, Value.truthy] at h
    · rfl
  | str s =>
    unfold SmartMemory.acceptValue SmartMemory.rejectedLiterals at h
    unfold claimAcceptable
    simp only [Value.truthy, Value.toStr] at h ⊢
    simp only [Bool.and_eq_true, Bool.not_eq_true', List.contains_cons,
      Bool.or_eq_false_iff, List.contains_nil, bne_iff_ne, ne_eq,
      decide_eq_true_eq] at h ⊢
    tauto

/-- C6: a successful facts update stores a key only from an incoming
pair whose value passes the spec criterion (non-empty, not blank after
trimming, not "none"/"null"/"unknown" case-insensitively); if every
incoming value fails that criterion, the session fact set is completely
unchanged. -/
theorem claim_C6_value_filtering (st : SmartMemoryState) (session_id : String)
    (details : List (String × Value)) (s : Session)
    (hs : dget st.sessions session_id = some s) :
    ∃ s', dget (SmartMemory.update_customer_details st session_id details).sessions session_id = some s' ∧
      (∀ k, dget s'.customer_details k ≠ dget s.customer_details k →
        ∃ kv ∈ details, SmartMemory.normalizeKey kv.1 = k ∧ claimAcceptable kv.2 = true) ∧
      ((∀ kv ∈ details, claimAcceptable kv.2 = false) → s'.customer_details = s.customer_details) := by
  refine ⟨_, update_sessions_some details hs, ?_, ?_⟩
  · intro k hk
    obtain ⟨kv, hkv, hacc, hnorm⟩ := foldStore_changed details s.customer_details k hk
    exact ⟨kv, hkv, hnorm, acceptValue_imp_claimAcceptable hacc⟩
  · intro hall
    show details.foldl SmartMemory.storeDetail s.customer_details = s.customer_details
    apply foldStore_skip
    intro kv hkv
    cases hacc : SmartMemory.acceptValue kv.2
    · rfl
    · have := acceptValue_imp_claimAcceptable hacc
      rw [hall kv hkv] at this
      exact absurd this (by simp)

theorem claim_C6_value_filtering_witness :
    ∃ s', dget (SmartMemory.update_customer_details ⟨[("s1", ⟨"hotel", [("name", .str "Bob")], []⟩)], ⟨[]⟩⟩ "s1" [("phone", .str " "), ("note", .str "None")]).sessions "s1" = some s' ∧
      (∀ k, dget s'.customer_details k ≠ dget [("name", Value.str "Bob")] k →
        ∃ kv ∈ [(("phone" : String), Value.str " "), (("note" : String), Value.str "None")], SmartMemory.normalizeKey kv.1 = k ∧ claimAcceptable kv.2 = true) ∧
      ((∀ kv ∈ [(("phone" : String), Value.str " "), (("note" : String), Value.str "None")], claimAcceptable kv.2 = false) → s'.customer_details = [("name", Value.str "Bob")]) :=
  claim_C6_value_filtering ⟨[("s1", ⟨"hotel", [("name", .str "Bob")], []⟩)], ⟨[]⟩⟩ "s1"
    [("phone", .str " "), ("note", .str "None")] ⟨"hotel", [("name", .str "Bob")], []⟩
    (by decide)

theorem isUpper_iff_toNat (c : Char) : c.isUpper = true ↔ (65 ≤ c.toNat ∧ c.toNat ≤ 90) := by
  simp only [Char.isUpper, Bool.and_eq_true, decide_eq_true_eq, ge_iff_le]
  rw [UInt32.le_def, UInt32.le_def, BitVec.le_def, BitVec.le_def]
  constructor
  · rintro ⟨h1, h2⟩
    exact ⟨h1, h2⟩
  · rintro ⟨h1, h2⟩
    exact ⟨h1, h2⟩

/-- Lowercasing never yields an uppercase basic latin letter. -/
theorem toLower_isUpper_false (c : Char) : (Char.toLower c).isUpper = false := by
  simp only [Char.toLower]
  by_cases h : 65 ≤ c.toNat ∧ c.toNat ≤ 90
  · rw [if_pos (by exact ⟨h.1, h.2⟩)]
    have hvalid : (c.toNat + 32).isValidChar := Or.inl (by omega)
    have hval : (Char.ofNat (c.toNat + 32)).toNat = c.toNat + 32 := by
      rw [Char.ofNat, dif_pos hvalid]
      rfl
    rw [Bool.eq_false_iff]
    intro hup
    have := (isUpper_iff_toNat _).mp hup
    rw [hval] at this
    omega
  · rw [if_neg (fun hc => h ⟨hc.1, hc.2⟩)]
    rw [Bool.eq_false_iff]
    intro hup
    exact h ((isUpper_iff_toNat c).mp hup)

/-- Every key produced by `normalizeKey` is in lower_snake_case shape. -/
theorem normalizeKey_lowerSnake (k : String) :
    lowerSnakeKey (SmartMemory.normalizeKey k) = true := by
  unfold lowerSnakeKey SmartMemory.normalizeKey
  rw [List.all_eq_true]
  intro c hc
  have hmem : c ∈ k.toList.map SmartMemory.normChar := by simpa using hc
  rcases List.mem_map.mp hmem with ⟨c0, _, rfl⟩
  unfold SmartMemory.normChar
  by_cases h : (Char.toLower c0) = ' ' ∨ (Char.toLower c0) = '-'
  · rw [if_pos h]
    decide
  · rw [if_neg h]
    push_neg at h
    simp [toLower_isUpper_false c0, h.1, h.2]

/-- C10: every key written into the session fact set by
`update_customer_details` is the normalization (lowercase, spaces and
hyphens replaced with underscores) of some incoming key, and the
lower_snake_case shape of all fact-set keys is preserved by every
update regardless of the incoming key shapes. -/
theorem claim_C10_key_normalization (st : SmartMemoryState) (session_id : String)
    (details : List (String × Value)) (s : Session)
    (hs : dget st.sessions session_id = some s) :
    ∃ s', dget (SmartMemory.update_customer_details st session_id details).sessions session_id = some s' ∧
      (∀ k, dget s'.customer_details k ≠ dget s.customer_details k →
        ∃ kv ∈ details, k = SmartMemory.normalizeKey kv.1) ∧
      ((∀ kv ∈ s.customer_details, lowerSnakeKey kv.1 = true) →
        ∀ kv ∈ s'.customer_details, lowerSnakeKey kv.1 = true) := by
  refine ⟨_, update_sessions_some details hs, ?_, ?_⟩
  · intro k hk
    obtain ⟨kv, hkv, _, hnorm⟩ := foldStore_changed details s.customer_details k hk
    exact ⟨kv, hkv, hnorm.symm⟩
  · intro hold kv' hkv'
    rcases foldStore_mem details s.customer_details kv' hkv' with hin | ⟨kv, _, heq⟩
    · exact hold kv' hin
    · rw [heq]
      exact normalizeKey_lowerSnake kv.1

theorem claim_C10_key_normalization_witness :
    ∃ s', dget (SmartMemory.update_customer_details ⟨[("s1", ⟨"hotel", [], []⟩)], ⟨[]⟩⟩ "s1" [("Party Size", .str "4"), ("e-mail", .str "a@b.c")]).sessions "s1" = some s' ∧
      (∀ k, dget s'.customer_details k ≠ dget ([] : List (String × Value)) k →
        ∃ kv ∈ [(("Party Size" : String), Value.str "4"), (("e-mail" : String), Value.str "a@b.c")], k = SmartMemory.normalizeKey kv.1) ∧
      ((∀ kv ∈ ([] : List (String × Value)), lowerSnakeKey kv.1 = true) →
        ∀ kv ∈ s'.customer_details, lowerSnakeKey kv.1 = true) :=
  claim_C10_key_normalization ⟨[("s1", ⟨"hotel", [], []⟩)], ⟨[]⟩⟩ "s1"
    [("Party Size", .str "4"), ("e-mail", .str "a@b.c")] ⟨"hotel", [], []⟩ (by decide)

theorem pyOr_eq_some {a b : Option Value} {v : Value}
    (h : SmartMemory.pyOr a b = some v) : a = some v ∨ b = some v := by
  unfold SmartMemory.pyOr at h
  cases a with
  | none => exact Or.inr h
  | some w =>
    dsimp only at h
    by_cases ht : w.truthy = true
    · rw [if_pos ht] at h
      exact Or.inl h
    · rw [if_neg ht] at h
      exact Or.inr h

/-- A resolved save name is truthy and comes from one of the three name
keys of the fact set. -/
theorem resolveName_cases {details : List (String × Value)} {nv : Value}
    (h : SmartMemory.resolveName details = some nv) :
    nv.truthy = true ∧ (dget details "name" = some nv ∨
      dget details "customer_name" = some nv ∨ dget details "full_name" = some nv) := by
  unfold SmartMemory.resolveName at h
  cases hp : SmartMemory.pyOr (dget details "name")
      (SmartMemory.pyOr (dget details "customer_name") (dget details "full_name")) with
  | none => rw [hp] at h; simp at h
  | some v =>
    rw [hp] at h
    dsimp only at h
    by_cases ht : v.truthy = true
    · rw [if_pos ht] at h
      obtain rfl : v = nv := Option.some.inj h
      refine ⟨ht, ?_⟩
      rcases pyOr_eq_some hp with h1 | h2
      · exact Or.inl h1
      · rcases pyOr_eq_some h2 with h3 | h4
        · exact Or.inr (Or.inl h3)
        · exact Or.inr (Or.inr h4)
    · rw [if_neg ht] at h
      simp at h

/-- Filtering by a predicate on keys does not change lookups of keys
that satisfy the predicate. -/
theorem dget_filter_key {α : Type} (P : String → Bool) (k : String) (hP : P k = true) :
    ∀ d : List (String × α), dget (d.filter (fun kv => P kv.1)) k = dget d k := by
  intro d
  induction d with
  | nil => rfl
  | cons p t ih =>
    rw [List.filter_cons]
    by_cases hp : P p.1 = true
    · rw [if_pos hp, dget_cons, dget_cons, ih]
    · have hne : ¬(p.1 = k) := fun he => hp (he ▸ hP)
      rw [if_neg hp, ih, dget_cons, if_neg hne]

/-- C3: a successful facts update writes the directory exactly when the
merged session fact set resolves a name and its meaningful projection
(keys not starting with an underscore and not the returning flag) holds
more than one entry; the resolved name itself sits in that projection
under one of the three name keys, so the bound says "the name fact plus
at least one other meaningful fact". A lone name writes nothing. -/
theorem claim_C3_save_gating (st : SmartMemoryState) (session_id : String)
    (details : List (String × Value)) (s : Session)
    (hs : dget st.sessions session_id = some s) :
    ((SmartMemory.resolveName (details.foldl SmartMemory.storeDetail s.customer_details) = none ∨
      (SmartMemory.saveData (details.foldl SmartMemory.storeDetail s.customer_details)).length ≤ 1) →
      (SmartMemory.update_customer_details st session_id details).db = st.db) ∧
    (∀ nv, SmartMemory.resolveName (details.foldl SmartMemory.storeDetail s.customer_details) = some nv →
      1 < (SmartMemory.saveData (details.foldl SmartMemory.storeDetail s.customer_details)).length →
      (SmartMemory.update_customer_details st session_id details).db =
        CustomerDatabase.save_customer st.db nv.toStr s.business_id
          (SmartMemory.saveData (details.foldl SmartMemory.storeDetail s.customer_details))) ∧
    (∀ nv, SmartMemory.resolveName (details.foldl SmartMemory.storeDetail s.customer_details) = some nv →
      ∃ k, (k = "name" ∨ k = "customer_name" ∨ k = "full_name") ∧
        dget (SmartMemory.saveData (details.foldl SmartMemory.storeDetail s.customer_details)) k = some nv) := by
  have hupd : SmartMemory.update_customer_details st session_id details =
      SmartMemory.save_to_db { st with sessions := dset st.sessions session_id { s with customer_details := details.foldl SmartMemory.storeDetail s.customer_details } } session_id := by
    unfold SmartMemory.update_customer_details
    rw [hs]
  have hs' : dget (dset st.sessions session_id { s with customer_details := details.foldl SmartMemory.storeDetail s.customer_details }) session_id = some { s with customer_details := details.foldl SmartMemory.storeDetail s.customer_details } := by
    rw [dget_dset, if_pos rfl]
  refine ⟨?_, ?_, ?_⟩
  · intro hcase
    rw [hupd]
    unfold SmartMemory.save_to_db
    rw [hs']
    dsimp only
    rcases hcase with hnone | hle
    · rw [hnone]
    · cases hres : SmartMemory.resolveName (details.foldl SmartMemory.storeDetail s.customer_details) with
      | none => rfl
      | some nv =>
        dsimp only
        rw [if_neg (by omega)]
  · intro nv hres hlen
    rw [hupd]
    unfold SmartMemory.save_to_db
    rw [hs']
    dsimp only
    rw [hres]
    dsimp only
    rw [if_pos hlen]
  · intro nv hres
    obtain ⟨_, hcase⟩ := resolveName_cases hres
    rcases hcase with h1 | h2 | h3
    · refine ⟨"name", Or.inl rfl, ?_⟩
      show dget ((details.foldl SmartMemory.storeDetail s.customer_details).filter (fun kv => SmartMemory.meaningfulKey kv.1)) "name" = some nv
      rw [dget_filter_key SmartMemory.meaningfulKey "name" (by decide)]
      exact h1
    · refine ⟨"customer_name", Or.inr (Or.inl rfl), ?_⟩
      show dget ((details.foldl SmartMemory.storeDetail s.customer_details).filter (fun kv => SmartMemory.meaningfulKey kv.1)) "customer_name" = some nv
      rw [dget_filter_key SmartMemory.meaningfulKey "customer_name" (by decide)]
      exact h2
    · refine ⟨"full_name", Or.inr (Or.inr rfl), ?_⟩
      show dget ((details.foldl SmartMemory.storeDetail s.customer_details).filter (fun kv => SmartMemory.meaningfulKey kv.1)) "full_name" = some nv
      rw [dget_filter_key SmartMemory.meaningfulKey "full_name" (by decide)]
      exact h3

theorem claim_C3_save_gating_witness :
    (SmartMemory.update_customer_details ⟨[("s1", ⟨"hotel", [("name", .str "Bob")], []⟩)], ⟨[]⟩⟩ "s1" [("phone", .str "5")]).db =
      CustomerDatabase.save_customer ⟨[]⟩ (Value.str "Bob").toStr "hotel"
        (SmartMemory.saveData ([("phone", Value.str "5")].foldl SmartMemory.storeDetail [("name", Value.str "Bob")])) :=
  (claim_C3_save_gating ⟨[("s1", ⟨"hotel", [("name", .str "Bob")], []⟩)], ⟨[]⟩⟩ "s1"
    [("phone", .str "5")] ⟨"hotel", [("name", .str "Bob")], []⟩ (by decide)).2.1
    (.str "Bob") (by decide) (by decide)

end Subconscious
